import Mathlib

/-!
Shallow embedding of the asterisk voicemail mailbox core
(src/lib/helpers/messages.js, src/lib/writer.js).

The messages helper source contains three successive variants of the
collection object; they are embedded here in namespaces
`VA` (the plain promise-based variant, first in the file),
`VB` (the synchronous variant with the read/unread sort), and
`VC` (the logger-instrumented variant, last in the file).
The writer source contains two successive variants, embedded as
`WriterV1` and `WriterV2` over shared state/event types in `Writer`.

Conventions: moment timestamps become `Nat` (with `isAfter` as `<`),
JS message identities (`getId()`) become `Option Nat` where `none`
models a falsy identity, JS array indexing with a possibly negative
index becomes `idxGet` over `Int`, and the asynchronous promise
chains are collapsed to sequential state passing; a promise rejection
is an `Except.error`.
-/

/-- A voicemail message record: identity, timestamp, read flag,
recording duration.  `id = none` models a falsy `getId()`. -/
structure Message where
  id : Option Nat
  date : Nat
  read : Bool
  duration : Nat
deriving Repr, DecidableEq

/-- JS array indexing `messages[i]` where `i` may be negative or past
the end: those yield `undefined`, here `none`. -/
def idxGet (ms : List Message) (i : Int) : Option Message :=
  if i < 0 then none else ms.get? i.toNat

/-- The defined (truthy) identities present in a message list. -/
def someIds (ms : List Message) : List Nat := ms.filterMap Message.id

/-- The `newMessages.forEach` body shared verbatim by every variant of
`add`: skip a message when an existing entry has the same truthy id,
otherwise push it and update `latest` when its date is newer
(`message.date.isAfter(self.latest)`). -/
def addFold (acc : List Message × Nat) (newMessages : List Message) :
    List Message × Nat :=
  newMessages.foldl (fun acc message =>
    let existing := acc.1.filter (fun candidate =>
      candidate.id == message.id && message.id.isSome)
    if existing.length == 0 then
      (acc.1 ++ [message],
       if acc.2 < message.date then message.date else acc.2)
    else acc) acc

/-- External store model: the set of message ids `dal.message.get`
still finds, and the batch `dal.message.latest` returns for a given
`latest` timestamp. -/
structure Store where
  ids : List Nat
  latestFn : Nat → List Message

/-- `dal.message.get(message)` resolves an instance exactly when the
message id is still in the store; a falsy id finds nothing. -/
def existsIn (st : Store) (m : Message) : Bool :=
  match m.id with
  | some i => st.ids.contains i
  | none => false

/-- Number of stale entries of a list: members the store no longer has. -/
def staleCount (st : Store) (ms : List Message) : Nat :=
  (ms.filter (fun m => !(existsIn st m))).length

/-- The four navigation operations dispatched by method name through
`ensureMessageExists`. -/
inductive NavOp where
  | first
  | next
  | current
  | prev
deriving Repr, DecidableEq

/-- The JS filter applied by every `remove`: keep the candidates whose
id differs from the removed message id
(`candidate.getId() !== message.getId()`). -/
def removeFilter (ms : List Message) (message : Message) : List Message :=
  ms.filter (fun candidate => !(candidate.id == message.id))

theorem mem_of_idxGet {ms : List Message} {i : Int} {m : Message}
    (h : idxGet ms i = some m) : m ∈ ms := by
  unfold idxGet at h
  split at h
  · exact absurd h (by simp)
  · exact List.get?_mem h

theorem removeFilter_length_lt {ms : List Message} {m : Message}
    (h : m ∈ ms) : (removeFilter ms m).length < ms.length := by
  unfold removeFilter
  refine (List.length_filter_lt_length_iff_exists).2 ⟨m, h, ?_⟩
  simp

/-! ## Variant A: src/lib/helpers/messages.js lines 26 to 334 -/

namespace VA

/-- Collection state of the first variant: list, cursor, cursor-live
flag (`currentMessage`), high-water mark (`latest`). -/
structure Collection where
  messages : List Message
  currentIndex : Int
  currentMessage : Bool
  latest : Nat
deriving Repr, DecidableEq

/-- `getMessage` returns `messages[currentIndex]`. -/
def getMessage (c : Collection) : Option Message :=
  idxGet c.messages c.currentIndex

/-- `add(newMessages)`: dedup-by-truthy-id push with `latest` update;
this variant never re-sorts. -/
def add (c : Collection) (newMessages : List Message) : Collection :=
  let r := addFold (c.messages, c.latest) newMessages
  { c with messages := r.1, latest := r.2 }

/-- `remove(message)`: filter the id out of the in-memory array and
clear the cursor-live flag. -/
def remove (c : Collection) (message : Message) : Collection :=
  { c with messages := removeFilter c.messages message,
           currentMessage := false }

/-- `isEmpty()` of this variant computes `!!messages.length`. -/
def isEmpty (c : Collection) : Bool :=
  c.messages.length != 0

/-- `isNotEmpty()` is `!isEmpty()`. -/
def isNotEmpty (c : Collection) : Bool :=
  !(isEmpty c)

/-- `previousExists()` is `currentIndex > 0`. -/
def previousExists (c : Collection) : Bool :=
  decide (0 < c.currentIndex)

/-- `calculateMenu()` of this variant: five independent pushes. -/
def calculateMenu (c : Collection) : List String :=
  let menu : List String := []
  let menu := if c.currentIndex = 0 ∧ c.currentMessage = false then
      menu ++ ["menuFirst"] else menu
  let menu := if previousExists c then menu ++ ["menuPrev"] else menu
  let menu := if c.currentMessage then menu ++ ["menuRepeat"] else menu
  let menu := if c.currentIndex ≠ (c.messages.length : Int) - 1 then
      menu ++ ["menuNext"] else menu
  let menu := if c.currentMessage then menu ++ ["menuDelete"] else menu
  menu

/-- Rejection causes for a navigation promise of this variant: the
self-heal re-dispatch `self[operation]()` hits a missing method for
the string `prev` (the method is named `previous`), throwing a
TypeError that `ensureMessageExists` catches and rejects with. -/
inductive NavErr where
  | dispatch
deriving Repr, DecidableEq

deriving instance DecidableEq for Except

/-- Outcome of a navigation call: the promise result, the final
collection state, and how many self-heal retries ran. -/
structure NavOut where
  res : Except NavErr (Option Message)
  coll : Collection
  retries : Nat
deriving Repr, DecidableEq

/-- The four navigation operations of the first variant with
`ensureMessageExists` inlined at each `some` branch: a found message
that no longer exists in the store is removed (clearing the live
flag) and the same operation re-dispatched by name.  `first` and
`next` fall back to `getLatest` + `add` when no message is at the
cursor; `next` clamps the cursor when the fetch leaves it one past
the end. -/
def nav (st : Store) (op : NavOp) (c : Collection) : NavOut :=
  match op with
  | .first =>
    let c1 : Collection := { c with currentMessage := true, currentIndex := 0 }
    match h : getMessage c1 with
    | none =>
      let c2 := add c1 (st.latestFn c1.latest)
      ⟨.ok (getMessage c2), c2, 0⟩
    | some message =>
      if existsIn st message then ⟨.ok (some message), c1, 0⟩
      else
        let out := nav st .first (remove c1 message)
        ⟨out.res, out.coll, out.retries + 1⟩
  | .next =>
    let c1 : Collection := { c with
      currentIndex := if c.currentMessage then c.currentIndex + 1
        else c.currentIndex,
      currentMessage := true }
    match h : getMessage c1 with
    | none =>
      let c2 := add c1 (st.latestFn c1.latest)
      let c3 := if c2.currentIndex = (c2.messages.length : Int) then
          { c2 with currentIndex := c2.currentIndex - 1 } else c2
      ⟨.ok (getMessage c3), c3, 0⟩
    | some message =>
      if existsIn st message then ⟨.ok (some message), c1, 0⟩
      else
        let out := nav st .next (remove c1 message)
        ⟨out.res, out.coll, out.retries + 1⟩
  | .current =>
    let c1 : Collection := { c with currentMessage := true }
    match h : getMessage c1 with
    | none => ⟨.ok none, c1, 0⟩
    | some message =>
      if existsIn st message then ⟨.ok (some message), c1, 0⟩
      else
        let out := nav st .current (remove c1 message)
        ⟨out.res, out.coll, out.retries + 1⟩
  | .prev =>
    let c1 : Collection := { c with currentMessage := true,
                                    currentIndex := c.currentIndex - 1 }
    match h : getMessage c1 with
    | none =>
      let c2 := if c1.currentIndex < 0 then { c1 with currentIndex := 0 }
        else c1
      ⟨.ok none, c2, 0⟩
    | some message =>
      if existsIn st message then ⟨.ok (some message), c1, 0⟩
      else ⟨.error .dispatch, remove c1 message, 0⟩
termination_by c.messages.length
decreasing_by
  all_goals
    simp only [remove, removeFilter]
    exact removeFilter_length_lt (mem_of_idxGet h)

end VA

/-! ## Variant B: src/lib/helpers/messages.js lines 377 to 563
(the synchronous variant with the read/unread re-sort on insert) -/

namespace VB

/-- Collection state of the synchronous variant. -/
structure Collection where
  messages : List Message
  currentIndex : Int
  currentMessage : Bool
  latest : Nat
deriving Repr, DecidableEq

/-- `getMessage` returns `messages[currentIndex]`. -/
def getMessage (c : Collection) : Option Message :=
  idxGet c.messages c.currentIndex

/-- Ascending-by-date sort used by `sortByDate`: the JS comparator
returns 1 when `first.date.isAfter(second.date)`, so consecutive
elements satisfy `first.date <= second.date`. -/
def sortByDate (array : List Message) : List Message :=
  array.mergeSort (fun first second => decide (first.date ≤ second.date))

/-- `sort()`: split into unread and read, sort each by date
ascending, and recombine unread-then-read. -/
def sortMessages (messages : List Message) : List Message :=
  let unread := messages.filter (fun message => !message.read)
  let read := messages.filter (fun message => message.read)
  sortByDate unread ++ sortByDate read

/-- The dedup/push part of `add` shared with the other variants. -/
def insertAll (c : Collection) (newMessages : List Message) : Collection :=
  let r := addFold (c.messages, c.latest) newMessages
  { c with messages := r.1, latest := r.2 }

/-- `add(newMessages)` of this variant: remember whether the
collection was non-empty (`reinsert`), push the non-duplicates, and
re-sort only when `reinsert` was set. -/
def add (c : Collection) (newMessages : List Message) : Collection :=
  let reinsert := c.messages.length != 0
  let c1 := insertAll c newMessages
  if reinsert then { c1 with messages := sortMessages c1.messages } else c1

/-- `first()`: cursor to 0, cursor live, return the message there. -/
def first (c : Collection) : Option Message × Collection :=
  let c1 : Collection := { c with currentIndex := 0, currentMessage := true }
  (getMessage c1, c1)

/-- `next()`: advance the cursor when live, mark live, read the
message, then clamp the cursor when it ran one past the end. -/
def next (c : Collection) : Option Message × Collection :=
  let c1 : Collection := { c with
    currentIndex := if c.currentMessage then c.currentIndex + 1
      else c.currentIndex,
    currentMessage := true }
  let message := getMessage c1
  let c2 := if c1.currentIndex = (c1.messages.length : Int) then
      { c1 with currentIndex := c1.currentIndex - 1 } else c1
  (message, c2)

/-- `current()`: mark live, return the message at the cursor. -/
def current (c : Collection) : Option Message × Collection :=
  let c1 : Collection := { c with currentMessage := true }
  (getMessage c1, c1)

/-- `previous()`: decrement the cursor, read the message, clamp at 0;
this variant does not touch the live flag. -/
def previous (c : Collection) : Option Message × Collection :=
  let c1 : Collection := { c with currentIndex := c.currentIndex - 1 }
  let message := getMessage c1
  let c2 := if c1.currentIndex < 0 then { c1 with currentIndex := 0 }
    else c1
  (message, c2)

/-- Iterated `next()` calls, collecting every returned message in call
order (the session loop of the navigation round-trip). -/
def walkNext : Nat → Collection → List (Option Message) × Collection
  | 0, c => ([], c)
  | k+1, c =>
    let r := next c
    let rest := walkNext k r.2
    (r.1 :: rest.1, rest.2)

/-- Iterated `previous()` calls, collecting every returned message in
call order. -/
def walkPrev : Nat → Collection → List (Option Message) × Collection
  | 0, c => ([], c)
  | k+1, c =>
    let r := previous c
    let rest := walkPrev k r.2
    (r.1 :: rest.1, rest.2)

end VB

/-! ## Variant C: src/lib/helpers/messages.js lines 598 to 1100
(the logger-instrumented variant; every navigation promise gains a
completion logging step that calls `message.getId()` on the resolved
value, so a resolution with `undefined` turns into a rejection) -/

namespace VC

/-- Collection state of the last variant, with the extra
`firstMessagePlayed` flag. -/
structure Collection where
  messages : List Message
  currentIndex : Int
  currentMessage : Bool
  firstMessagePlayed : Bool
  latest : Nat
deriving Repr, DecidableEq

/-- `getMessage` returns `messages[currentIndex]`. -/
def getMessage (c : Collection) : Option Message :=
  idxGet c.messages c.currentIndex

/-- `add(newMessages)` of this variant: dedup-by-truthy-id push with
`latest` update; no re-sort. -/
def add (c : Collection) (newMessages : List Message) : Collection :=
  let r := addFold (c.messages, c.latest) newMessages
  { c with messages := r.1, latest := r.2 }

/-- `remove(message)` of this variant: only filters the id out of the
in-memory array (the live flag is left alone). -/
def remove (c : Collection) (message : Message) : Collection :=
  { c with messages := removeFilter c.messages message }

/-- `isEmpty()` of this variant computes `messages.length ? false : true`. -/
def isEmpty (c : Collection) : Bool :=
  if c.messages.length ≠ 0 then false else true

/-- `isNotEmpty()` is `!isEmpty()`. -/
def isNotEmpty (c : Collection) : Bool :=
  !(isEmpty c)

/-- `previousExists()` is `currentIndex > 0`. -/
def previousExists (c : Collection) : Bool :=
  decide (0 < c.currentIndex)

/-- `calculateMenu()` of this variant: `menuFirst` as before, but the
other four entries are gated behind `firstMessagePlayed`. -/
def calculateMenu (c : Collection) : List String :=
  let menu : List String := []
  let menu := if c.currentIndex = 0 ∧ c.currentMessage = false then
      menu ++ ["menuFirst"] else menu
  if c.firstMessagePlayed then
    let menu := if previousExists c then menu ++ ["menuPrev"] else menu
    let menu := if c.currentMessage then menu ++ ["menuRepeat"] else menu
    let menu := if c.currentIndex ≠ (c.messages.length : Int) - 1 then
        menu ++ ["menuNext"] else menu
    let menu := if c.currentMessage then menu ++ ["menuDelete"] else menu
    menu
  else menu

/-- The cursor value `next()` works with: incremented when the cursor
is live (`currentIndex = currentMessage ? currentIndex + 1 :
currentIndex`), unchanged otherwise. -/
def nextIdx (c : Collection) : Int :=
  if c.currentMessage then c.currentIndex + 1 else c.currentIndex

/-- The four navigation operations of this variant,
`ensureMessageExists` inlined: a still-existing message resolves and
sets `currentMessage` and `firstMessagePlayed`; a vanished one is
removed and the operation re-dispatched (here the `prev` key matches
the method name, so no dispatch error).  A resolution with
`undefined` is an `Except.error` because the completion logging calls
`message.getId()` on it.  In the fetch path of `next`, the resolved
message is read before the cursor clamp. -/
def nav (st : Store) (op : NavOp) (c : Collection) :
    Except Unit Message × Collection :=
  match op with
  | .first =>
    let c1 : Collection := { c with currentIndex := 0 }
    match h : getMessage c1 with
    | none =>
      let c2 := add c1 (st.latestFn c1.latest)
      match getMessage c2 with
      | some m =>
        (Except.ok m, { c2 with currentMessage := true,
                                firstMessagePlayed := true })
      | none => (Except.error (), c2)
    | some message =>
      if existsIn st message then
        (Except.ok message, { c1 with currentMessage := true,
                                      firstMessagePlayed := true })
      else nav st .first (remove c1 message)
  | .next =>
    let c1 : Collection := { c with
      currentIndex := if c.currentMessage then c.currentIndex + 1
        else c.currentIndex }
    match h : getMessage c1 with
    | none =>
      let c2 := add c1 (st.latestFn c1.latest)
      let msg := getMessage c2
      let c3 := if c2.currentIndex = (c2.messages.length : Int) then
          { c2 with currentIndex := c2.currentIndex - 1 } else c2
      match msg with
      | some m => (Except.ok m, { c3 with currentMessage := true })
      | none => (Except.error (), c3)
    | some message =>
      if existsIn st message then
        (Except.ok message, { c1 with currentMessage := true,
                                      firstMessagePlayed := true })
      else nav st .next (remove c1 message)
  | .current =>
    match h : getMessage c with
    | none => (Except.error (), c)
    | some message =>
      if existsIn st message then
        (Except.ok message, { c with currentMessage := true,
                                     firstMessagePlayed := true })
      else nav st .current (remove c message)
  | .prev =>
    let c1 : Collection := { c with currentIndex := c.currentIndex - 1 }
    match h : getMessage c1 with
    | none =>
      let c2 := if c1.currentIndex < 0 then { c1 with currentIndex := 0 }
        else c1
      (Except.error (), c2)
    | some message =>
      if existsIn st message then
        (Except.ok message, { c1 with currentMessage := true,
                                      firstMessagePlayed := true })
      else nav st .prev (remove c1 message)
termination_by c.messages.length
decreasing_by
  all_goals
    simp only [remove, removeFilter]
    exact removeFilter_length_lt (mem_of_idxGet h)

/-- Iterated `next()` navigation against a store, collecting every
promise outcome in call order. -/
def walkNext (st : Store) : Nat → Collection →
    List (Except Unit Message) × Collection
  | 0, c => ([], c)
  | k+1, c =>
    let r := nav st .next c
    let rest := walkNext st k r.2
    (r.1 :: rest.1, rest.2)

/-- Iterated `prev()` navigation against a store, collecting every
promise outcome in call order. -/
def walkPrev (st : Store) : Nat → Collection →
    List (Except Unit Message) × Collection
  | 0, c => ([], c)
  | k+1, c =>
    let r := nav st .prev c
    let rest := walkPrev st k r.2
    (r.1 :: rest.1, rest.2)

/-- Effects of the collection's `markAsRead` beyond the in-memory
flag flip: store write, MWI notification, move to the Old folder. -/
inductive MEffect where
  | dalMarkAsRead
  | notifyMessageRead
  | dalChangeFolder
deriving Repr, DecidableEq

/-- Modelled from the spec: the Message entity (created by the
external data-access layer, absent from src/) exposes
`markAsRead()` which flips `read` false to true and reports whether
a change occurred (the unit tests mock it with exactly this body). -/
def msgMarkAsRead (m : Message) : Bool × Message :=
  if m.read then (false, m) else (true, { m with read := true })

/-- The collection's `markAsRead(message)`: flip the entity flag and,
only when that reported a change, write to the store, notify MWI and
move the message to the Old folder. -/
def markAsRead (m : Message) : Message × List MEffect :=
  let r := msgMarkAsRead m
  (r.2, if r.1 then [.dalMarkAsRead, .notifyMessageRead, .dalChangeFolder]
    else [])

end VC

/-! ## Writer state machine: src/lib/writer.js

State/event/effect types shared by the two writer variants.  The
machina FSM is modelled as a step function over completion events:
each asynchronous collaborator call is split into the command that
starts it and the event that its promise resolution (or the channel)
delivers.  `recording` is the `this.recording` field: `some` once a
LiveRecording has been created (payload: the duration known so far),
which is exactly the truthiness `hangupHandler` tests.  Events whose
callbacks can no longer run (listeners detached in `done`, play or
load callbacks already consumed) are guarded by the state they can
fire in. -/

namespace Writer

/-- The writer FSM states. -/
inductive St where
  | init
  | ready
  | stoppingPrompt
  | recording
  | stoppingRecording
  | recordingFinished
  | savingRecording
  | done
deriving Repr, DecidableEq

/-- Writer machine state: machina state tag, the `this.recording`
handle, and the `this.introPrompt` handle. -/
structure M where
  state : St
  recording : Option Nat
  introPrompt : Bool
deriving Repr, DecidableEq

/-- The fresh machine: machina starts in `init`. -/
def w0 : M := ⟨.init, none, false⟩

/-- Events driving the writer: api commands (`record`, `stop`,
`save`), completions of the asynchronous collaborator calls, the
RecordingFinished channel event (carrying the final duration), and
the StasisEnd hangup. -/
inductive Ev where
  | initDone
  | record
  | stop
  | save
  | promptPlayed
  | promptFail
  | recordFail
  | recordingDone (d : Nat)
  | stopFail
  | saveDone
  | saveFail
  | hangup
deriving Repr, DecidableEq

/-- Observable collaborator effects of a step. -/
inductive Eff where
  | playPrompt
  | stopPrompt
  | startRecording
  | stopRecording
  | createMsg (m : Message)
  | saveMsg (m : Message)
  | newMessage
deriving Repr, DecidableEq

/-- Modelled from the spec: `createMessage(mailbox, folder, fields)`
lives in the external data-access layer (absent from src/); per the
spec it assigns a timestamp and initial `read = false`, keeping the
`duration` field passed by `savingRecording`.  The session timestamp
is fixed at 0 here. -/
def createMessage (duration : Nat) : Message :=
  { id := none, date := 0, read := false, duration := duration }

/-- The payload of a `createMsg` effect, for counting creations. -/
def createdMsg : Eff → Option Message
  | .createMsg m => some m
  | _ => none

end Writer

namespace WriterV2

open Writer

/-- One step of the second writer variant (src/lib/writer.js lines
347 to 635): machina handlers plus `_onEnter` effects of the state
entered.  `hangupHandler` transitions to `done` only when
`this.recording` is unset; `savingRecording` creates and saves the
message, then notifies `newMessage`. -/
def stepE (e : Ev) (w : M) : M × List Eff :=
  match e with
  | .initDone =>
    if w.state = .init then ({ w with state := .ready }, []) else (w, [])
  | .record =>
    if w.state = .ready then ({ w with introPrompt := true }, [.playPrompt])
    else (w, [])
  | .stop =>
    if w.state = .ready ∧ w.introPrompt then
      ({ w with state := .stoppingPrompt }, [.stopPrompt])
    else if w.state = .recording ∧ w.recording.isSome then
      ({ w with state := .stoppingRecording }, [.stopRecording])
    else (w, [])
  | .promptPlayed =>
    if w.state = .ready ∨ w.state = .stoppingPrompt then
      ({ w with state := .recording, recording := some 0 }, [.startRecording])
    else (w, [])
  | .promptFail =>
    if w.state = .ready ∨ w.state = .stoppingPrompt then
      ({ w with state := .done }, [])
    else (w, [])
  | .recordFail =>
    if w.state = .recording then ({ w with state := .done }, []) else (w, [])
  | .recordingDone d =>
    if w.state = .done then (w, [])
    else ({ w with state := .recordingFinished, recording := some d }, [])
  | .stopFail =>
    if w.state = .stoppingRecording then ({ w with state := .done }, [])
    else (w, [])
  | .save =>
    if w.state = .recordingFinished then
      let m := createMessage (w.recording.getD 0)
      ({ w with state := .savingRecording },
       [.createMsg m, .saveMsg m, .newMessage])
    else (w, [])
  | .saveDone =>
    if w.state = .savingRecording then ({ w with state := .done }, [])
    else (w, [])
  | .saveFail =>
    if w.state = .savingRecording then ({ w with state := .done }, [])
    else (w, [])
  | .hangup =>
    if w.recording.isSome then (w, []) else ({ w with state := .done }, [])

/-- Run a list of events, accumulating effects. -/
def run (evs : List Ev) (w : M) : M × List Eff :=
  evs.foldl (fun acc e =>
    let r := stepE e acc.1
    (r.1, acc.2 ++ r.2)) (w, [])

/-- One machine step under some event. -/
def stepOne (a b : M) : Prop := ∃ e, (stepE e a).1 = b

/-- States reachable from the fresh machine. -/
def Reachable (w : M) : Prop := Relation.ReflTransGen stepOne w0 w

/-- The recording-handle invariant: `this.recording` is set in every
state at or after `recording`, and unset in the states before it. -/
def Inv (w : M) : Prop :=
  ((w.state = .recording ∨ w.state = .stoppingRecording ∨
    w.state = .recordingFinished ∨ w.state = .savingRecording) →
      w.recording.isSome) ∧
  ((w.state = .init ∨ w.state = .ready ∨ w.state = .stoppingPrompt) →
      w.recording = none)

end WriterV2

namespace WriterV1

open Writer

/-- One step of the first writer variant (src/lib/writer.js lines 26
to 230): identical protocol, but `savingRecording` saves the message
and emits RecordingSaved without any notifier call. -/
def stepE (e : Ev) (w : M) : M × List Eff :=
  match e with
  | .initDone =>
    if w.state = .init then ({ w with state := .ready }, []) else (w, [])
  | .record =>
    if w.state = .ready then ({ w with introPrompt := true }, [.playPrompt])
    else (w, [])
  | .stop =>
    if w.state = .ready ∧ w.introPrompt then
      ({ w with state := .stoppingPrompt }, [.stopPrompt])
    else if w.state = .recording ∧ w.recording.isSome then
      ({ w with state := .stoppingRecording }, [.stopRecording])
    else (w, [])
  | .promptPlayed =>
    if w.state = .ready ∨ w.state = .stoppingPrompt then
      ({ w with state := .recording, recording := some 0 }, [.startRecording])
    else (w, [])
  | .promptFail =>
    if w.state = .ready ∨ w.state = .stoppingPrompt then
      ({ w with state := .done }, [])
    else (w, [])
  | .recordFail =>
    if w.state = .recording then ({ w with state := .done }, []) else (w, [])
  | .recordingDone d =>
    if w.state = .done then (w, [])
    else ({ w with state := .recordingFinished, recording := some d }, [])
  | .stopFail =>
    if w.state = .stoppingRecording then ({ w with state := .done }, [])
    else (w, [])
  | .save =>
    if w.state = .recordingFinished then
      let m := createMessage (w.recording.getD 0)
      ({ w with state := .savingRecording }, [.createMsg m, .saveMsg m])
    else (w, [])
  | .saveDone =>
    if w.state = .savingRecording then ({ w with state := .done }, [])
    else (w, [])
  | .saveFail =>
    if w.state = .savingRecording then ({ w with state := .done }, [])
    else (w, [])
  | .hangup =>
    if w.recording.isSome then (w, []) else ({ w with state := .done }, [])

/-- Run a list of events, accumulating effects. -/
def run (evs : List Ev) (w : M) : M × List Eff :=
  evs.foldl (fun acc e =>
    let r := stepE e acc.1
    (r.1, acc.2 ++ r.2)) (w, [])

end WriterV1

/-- The menu list the specification prescribes, as a function of
cursor position, cursor liveness and list length; used to compare the
two `calculateMenu` implementations against the spec text. -/
def specCalculateMenu (idx : Int) (live : Bool) (len : Nat) : List String :=
  (if idx = 0 ∧ live = false then ["menuFirst"] else []) ++
  (if 0 < idx then ["menuPrev"] else []) ++
  (if live then ["menuRepeat"] else []) ++
  (if idx ≠ (len : Int) - 1 then ["menuNext"] else []) ++
  (if live then ["menuDelete"] else [])

/-! ## Helper lemmas -/

theorem addFold_nil (acc : List Message × Nat) : addFold acc [] = acc := rfl

theorem addFold_cons (acc : List Message × Nat) (m : Message)
    (ms : List Message) :
    addFold acc (m :: ms) =
      addFold
        (if ((acc.1.filter (fun candidate =>
            candidate.id == m.id && m.id.isSome)).length == 0)
         then (acc.1 ++ [m], if acc.2 < m.date then m.date else acc.2)
         else acc) ms := by
  simp only [addFold, List.foldl_cons]

theorem ite_lt_eq_max (a b : Nat) : (if a < b then b else a) = max a b := by
  rcases Nat.lt_or_ge a b with h | h
  · simp [h, Nat.max_eq_right h.le]
  · simp [Nat.not_lt.2 h, Nat.max_eq_left h]

theorem foldl_max_eq : ∀ (ds : List Nat) (l : Nat),
    ds.foldl max l = max l (ds.foldr max 0) := by
  intro ds
  induction ds with
  | nil => intro l; simp
  | cons d ds ih =>
    intro l
    simp only [List.foldl_cons, List.foldr_cons, ih]
    omega

theorem someIds_append (xs ys : List Message) :
    someIds (xs ++ ys) = someIds xs ++ someIds ys := by
  simp [someIds]

/-- The core fact about the shared `add` fold: it appends a sublist of
the incoming batch, accumulates `latest` as a running max over the
genuinely appended messages, and preserves the distinctness of
defined identities. -/
theorem addFold_spec : ∀ (ms acc : List Message) (l : Nat),
    ∃ t, (addFold (acc, l) ms).1 = acc ++ t ∧ t.Sublist ms ∧
      (addFold (acc, l) ms).2 =
        t.foldl (fun a m => max a m.date) l ∧
      ((someIds acc).Nodup → (someIds (acc ++ t)).Nodup) := by
  intro ms
  induction ms with
  | nil =>
    intro acc l
    exact ⟨[], by simp [addFold_nil], List.Sublist.refl _,
      by simp [addFold_nil], by simp⟩
  | cons m rest ih =>
    intro acc l
    rw [addFold_cons]
    by_cases hdup :
        ((acc.filter (fun candidate =>
          candidate.id == m.id && m.id.isSome)).length == 0) = true
    · -- pushed
      obtain ⟨t, h1, h2, h3, h4⟩ := ih (acc ++ [m])
        (if l < m.date then m.date else l)
      refine ⟨m :: t, ?_, List.Sublist.cons₂ m h2, ?_, ?_⟩
      · simp only [hdup, if_true]
        simpa [List.append_assoc] using h1
      · rw [ite_lt_eq_max] at h3
        simp only [hdup, if_true, List.foldl_cons, ite_lt_eq_max, h3]
      · intro hnd
        have hid : ∀ x ∈ acc, ¬(x.id = m.id ∧ m.id.isSome) := by
          intro x hx hcontra
          have : (acc.filter (fun candidate =>
              candidate.id == m.id && m.id.isSome)).length = 0 := by
            simpa using hdup
          rw [List.length_eq_zero] at this
          have hmemf : x ∈ acc.filter (fun candidate =>
              candidate.id == m.id && m.id.isSome) := by
            refine List.mem_filter.2 ⟨hx, ?_⟩
            simp [hcontra.1, hcontra.2]
          rw [this] at hmemf
          cases hmemf
        have hnd2 : (someIds (acc ++ [m])).Nodup := by
          cases hmid : m.id with
          | none =>
            have heq : someIds (acc ++ [m]) = someIds acc := by
              rw [someIds_append]; simp [someIds, hmid]
            rw [heq]; exact hnd
          | some k =>
            have hknot : k ∉ someIds acc := by
              intro hk
              obtain ⟨x, hx, hxk⟩ := List.mem_filterMap.1 hk
              exact hid x hx ⟨by rw [hxk, hmid], by simp [hmid]⟩
            have heq : someIds (acc ++ [m]) = someIds acc ++ [k] := by
              rw [someIds_append]; simp [someIds, hmid]
            rw [heq, List.nodup_append]
            refine ⟨hnd, List.nodup_singleton k, ?_⟩
            intro a ha hb
            have hak : a = k := by simpa using hb
            subst hak
            exact hknot ha
        have h5 := h4 hnd2
        have heq2 : acc ++ m :: t = acc ++ [m] ++ t := by simp
        rw [heq2]
        exact h5
    · -- skipped as duplicate
      obtain ⟨t, h1, h2, h3, h4⟩ := ih acc l
      refine ⟨t, ?_, h2.cons m, ?_, h4⟩
      · simpa [hdup] using h1
      · simpa [hdup] using h3

/-! ## Claim theorems -/

/-- Claim C10: `isEmpty()` should be true exactly on an empty list and
`isNotEmpty()` its negation.  The last variant satisfies this; the
first variant computes `!!messages.length`, which is `true` on a
one-message collection, contradicting both the claim and the unit
test `assert(!messages.isEmpty())` run against a loaded collection. -/
theorem claim10_isEmpty :
    (∀ c : VC.Collection,
      VC.isEmpty c = c.messages.isEmpty ∧
      VC.isNotEmpty c = !(VC.isEmpty c)) ∧
    VA.isEmpty ⟨[⟨some 1, 5, false, 10⟩], 0, false, 0⟩ = true ∧
    VA.isNotEmpty ⟨[⟨some 1, 5, false, 10⟩], 0, false, 0⟩ = false := by
  refine ⟨fun c => ⟨?_, rfl⟩, by decide, by decide⟩
  cases h : c.messages <;> simp [VC.isEmpty, h]

/-- Claim C6: the entity-level `markAsRead` flips `read` at most once
and reports a change only the first time; the collection-level
`markAsRead` performs no store write, notification or folder move
when the message is already read. -/
theorem claim6_markAsRead :
    ∀ m : Message,
      (VC.markAsRead m).1.read = true ∧
      (VC.markAsRead (VC.markAsRead m).1).1 = (VC.markAsRead m).1 ∧
      (VC.msgMarkAsRead m).1 = !m.read ∧
      (VC.msgMarkAsRead (VC.markAsRead m).1).1 = false ∧
      (VC.markAsRead (VC.markAsRead m).1).2 = [] ∧
      (VC.markAsRead { m with read := true }).2 = [] := by
  intro m
  rcases m with ⟨mid, mdate, mread, mdur⟩
  cases mread <;> simp [VC.markAsRead, VC.msgMarkAsRead]

/-- Claim C2 (amended): every `add` appends a sublist of the batch,
`highWaterMark` becomes the max of its previous value and the dates
of the genuinely appended messages (hence never decreases), and
distinctness of the defined identities is preserved.  As stated the
claim fails for messages with a falsy identity, see the
counterexample. -/
theorem claim2_add :
    ∀ (c : VC.Collection) (ms : List Message),
      (∃ t, (VC.add c ms).messages = c.messages ++ t ∧ t.Sublist ms) ∧
      (VC.add c ms).latest =
        max c.latest
          ((((VC.add c ms).messages.drop c.messages.length).map
            Message.date).foldr max 0) ∧
      c.latest ≤ (VC.add c ms).latest ∧
      ((someIds c.messages).Nodup →
        (someIds (VC.add c ms).messages).Nodup) := by
  intro c ms
  obtain ⟨t, h1, h2, h3, h4⟩ := addFold_spec ms c.messages c.latest
  have hmsg : (VC.add c ms).messages = c.messages ++ t := h1
  have hlat : (VC.add c ms).latest =
      t.foldl (fun a m => max a m.date) c.latest := h3
  have hdrop : (VC.add c ms).messages.drop c.messages.length = t := by
    rw [hmsg, List.drop_left]
  have hfold : t.foldl (fun a m => max a m.date) c.latest =
      max c.latest ((t.map Message.date).foldr max 0) := by
    rw [← List.foldl_map (f := Message.date) (g := max), foldl_max_eq]
  refine ⟨⟨t, hmsg, h2⟩, ?_, ?_, ?_⟩
  · rw [hlat, hdrop, hfold]
  · rw [hlat, hfold]; exact le_max_left _ _
  · intro hnd; rw [hmsg]; exact h4 hnd

/-- Claim C2 counterexample: two messages with a falsy identity both
enter the list, so `add` does produce two entries with the same
identity. -/
theorem claim2_counterexample :
    ((VC.add ⟨[], 0, false, false, 0⟩
        [⟨none, 5, false, 0⟩, ⟨none, 5, false, 0⟩]).messages.map
      Message.id) = [none, none] ∧
    ¬ ((VC.add ⟨[], 0, false, false, 0⟩
        [⟨none, 5, false, 0⟩, ⟨none, 5, false, 0⟩]).messages.map
      Message.id).Nodup := by
  exact ⟨rfl, by decide⟩

/-- Claim C2 witness: the amended theorem applied to a concrete
non-empty collection and batch. -/
theorem claim2_witness :
    (someIds (VC.add ⟨[⟨some 1, 10, false, 0⟩], 0, false, false, 10⟩
      [⟨some 1, 99, false, 0⟩, ⟨some 2, 7, true, 0⟩]).messages).Nodup :=
  (claim2_add ⟨[⟨some 1, 10, false, 0⟩], 0, false, false, 10⟩
    [⟨some 1, 99, false, 0⟩, ⟨some 2, 7, true, 0⟩]).2.2.2 (by decide)

/-- Claim C4 (amended): in the variant whose `add` re-sorts, inserting
into a non-empty collection yields all unread messages (ascending by
date) followed by all read messages (ascending by date), a
permutation of the plainly inserted list; inserting into an empty
collection performs no re-sort and preserves the fetch order (the
result is a sublist of the batch).  As stated the claim fails on the
last variant, whose `add` never re-sorts: see the counterexample. -/
theorem claim4_add :
    ∀ (c : VB.Collection) (ms : List Message),
      (c.messages ≠ [] →
        ∃ u v, (VB.add c ms).messages = u ++ v ∧
          (∀ m ∈ u, m.read = false) ∧ (∀ m ∈ v, m.read = true) ∧
          u.Pairwise (fun a b => a.date ≤ b.date) ∧
          v.Pairwise (fun a b => a.date ≤ b.date) ∧
          (VB.add c ms).messages.Perm (VB.insertAll c ms).messages) ∧
      (c.messages = [] → (VB.add c ms).messages.Sublist ms) := by
  intro c ms
  have htrans : ∀ a b d : Message,
      (fun x y : Message => decide (x.date ≤ y.date)) a b →
      (fun x y : Message => decide (x.date ≤ y.date)) b d →
      (fun x y : Message => decide (x.date ≤ y.date)) a d := by
    intro a b d hab hbd
    simp only [decide_eq_true_eq] at *
    omega
  have htotal : ∀ a b : Message,
      ((fun x y : Message => decide (x.date ≤ y.date)) a b ||
       (fun x y : Message => decide (x.date ≤ y.date)) b a) = true := by
    intro a b
    simp only [Bool.or_eq_true, decide_eq_true_eq]
    omega
  constructor
  · intro hne
    have hlen : (c.messages.length != 0) = true := by
      simpa [bne_iff_ne, List.length_eq_zero] using hne
    have hadd : (VB.add c ms).messages =
        VB.sortMessages (VB.insertAll c ms).messages := by
      simp only [VB.add, hlen, if_true]
    set l := (VB.insertAll c ms).messages with hl
    refine ⟨VB.sortByDate (l.filter (fun m => !m.read)),
            VB.sortByDate (l.filter (fun m => m.read)),
            by rw [hadd]; rfl, ?_, ?_, ?_, ?_, ?_⟩
    · intro m hm
      have : m ∈ l.filter (fun m => !m.read) := by
        simpa [VB.sortByDate] using hm
      simpa using (List.mem_filter.1 this).2
    · intro m hm
      have : m ∈ l.filter (fun m => m.read) := by
        simpa [VB.sortByDate] using hm
      simpa using (List.mem_filter.1 this).2
    · exact (List.sorted_mergeSort htrans htotal _).imp
        (fun h => by simpa using h)
    · exact (List.sorted_mergeSort htrans htotal _).imp
        (fun h => by simpa using h)
    · rw [hadd]
      have h1 := List.mergeSort_perm (l.filter (fun m => !m.read))
        (fun x y : Message => decide (x.date ≤ y.date))
      have h2 := List.mergeSort_perm (l.filter (fun m => m.read))
        (fun x y : Message => decide (x.date ≤ y.date))
      have h3 := List.filter_append_perm (fun m : Message => !m.read) l
      have hfe : (fun x : Message => !(!x.read)) = (fun x : Message => x.read) := by
        funext x
        simp
      rw [hfe] at h3
      exact ((h1.append h2).trans h3)
  · intro hemp
    have hlen : (c.messages.length != 0) = false := by
      simp [hemp]
    have hadd : VB.add c ms = VB.insertAll c ms := by
      simp only [VB.add, hlen, Bool.false_eq_true, if_false]
    rw [hadd]
    obtain ⟨t, h1, h2, _, _⟩ := addFold_spec ms c.messages c.latest
    have : (VB.insertAll c ms).messages = c.messages ++ t := h1
    rw [this, hemp, List.nil_append]
    exact h2

/-- Claim C4 counterexample: the `add` of the last variant inserts an
older unread message after a newer one into a non-empty collection
and never re-sorts, so the resulting list is not in the claimed
order. -/
theorem claim4_counterexample :
    ((VC.add ⟨[⟨some 1, 10, false, 0⟩], 0, false, false, 10⟩
        [⟨some 2, 5, false, 0⟩]).messages.map Message.date) = [10, 5] ∧
    ¬ ((VC.add ⟨[⟨some 1, 10, false, 0⟩], 0, false, false, 10⟩
        [⟨some 2, 5, false, 0⟩]).messages.map Message.date).Pairwise
      (· ≤ ·) := by
  exact ⟨rfl, by decide⟩

/-- Claim C4 witness: the amended theorem applied to a concrete
non-empty collection. -/
theorem claim4_witness :
    ∃ u v, (VB.add ⟨[⟨some 1, 10, false, 0⟩], 0, true, 10⟩
        [⟨some 2, 5, false, 0⟩, ⟨some 3, 20, true, 0⟩]).messages = u ++ v ∧
      (∀ m ∈ u, m.read = false) ∧ (∀ m ∈ v, m.read = true) ∧
      u.Pairwise (fun a b => a.date ≤ b.date) ∧
      v.Pairwise (fun a b => a.date ≤ b.date) ∧
      (VB.add ⟨[⟨some 1, 10, false, 0⟩], 0, true, 10⟩
        [⟨some 2, 5, false, 0⟩, ⟨some 3, 20, true, 0⟩]).messages.Perm
        (VB.insertAll ⟨[⟨some 1, 10, false, 0⟩], 0, true, 10⟩
          [⟨some 2, 5, false, 0⟩, ⟨some 3, 20, true, 0⟩]).messages :=
  (claim4_add ⟨[⟨some 1, 10, false, 0⟩], 0, true, 10⟩
    [⟨some 2, 5, false, 0⟩, ⟨some 3, 20, true, 0⟩]).1 (by decide)

/-- Claim C5 (amended): the first variant's `calculateMenu` agrees
everywhere with the menu the spec prescribes (fixed order, first iff
cursor 0 and not live, previous iff cursor positive, repeat and
delete iff live, next iff not at the last index), including the
claimed 5-message instances.  In the last variant the four non-first
entries are additionally gated behind `firstMessagePlayed`, so the
equation holds there only under that flag: see the counterexample. -/
theorem claim5_menu :
    (∀ c : VA.Collection,
      VA.calculateMenu c =
        specCalculateMenu c.currentIndex c.currentMessage
          c.messages.length) ∧
    (∀ c : VC.Collection, c.firstMessagePlayed = true →
      VC.calculateMenu c =
        specCalculateMenu c.currentIndex c.currentMessage
          c.messages.length) ∧
    specCalculateMenu 0 true 5 = ["menuRepeat", "menuNext", "menuDelete"] ∧
    "menuNext" ∉ specCalculateMenu 4 true 5 := by
  refine ⟨?_, ?_, by decide, by decide⟩
  · intro c
    simp only [VA.calculateMenu, specCalculateMenu, VA.previousExists]
    split_ifs <;> simp_all <;> omega
  · intro c hf
    simp only [VC.calculateMenu, specCalculateMenu, VC.previousExists, hf,
      if_true]
    split_ifs <;> simp_all <;> omega

/-- Every writer step preserves the recording-handle invariant. -/
theorem stepE_inv (e : Writer.Ev) (w : Writer.M) (h : WriterV2.Inv w) :
    WriterV2.Inv (WriterV2.stepE e w).1 := by
  obtain ⟨h1, h2⟩ := h
  cases e <;>
    simp only [WriterV2.stepE, WriterV2.Inv] <;>
    split_ifs <;>
    simp_all

/-- Reachable writer states satisfy the recording-handle invariant. -/
theorem inv_of_reachable {w : Writer.M} (h : WriterV2.Reachable w) :
    WriterV2.Inv w := by
  induction h with
  | refl =>
    constructor <;> intro hc <;> simp [Writer.w0] at hc ⊢
  | tail hs hstep ih =>
    obtain ⟨e, he⟩ := hstep
    exact he ▸ stepE_inv e _ ih

/-- Claim C8: in every reachable writer state, a hangup received while
a recording is in progress leaves the machine untouched (in
particular it never enters `done`), while a hangup received in `init`,
`ready` or `stoppingPrompt` (before any recording has started)
transitions directly to `done`. -/
theorem claim8_hangup :
    ∀ w : Writer.M, WriterV2.Reachable w →
      ((w.state = .recording ∨ w.state = .stoppingRecording) →
        (WriterV2.stepE .hangup w).1 = w) ∧
      ((w.state = .init ∨ w.state = .ready ∨ w.state = .stoppingPrompt) →
        ((WriterV2.stepE .hangup w).1).state = .done) := by
  intro w hw
  obtain ⟨h1, h2⟩ := inv_of_reachable hw
  constructor
  · intro hs
    have : w.recording.isSome := h1 (by tauto)
    simp [WriterV2.stepE, this]
  · intro hs
    have : w.recording = none := h2 hs
    simp [WriterV2.stepE, this]

/-- Claim C8 witness: the theorem applied to the concrete reachable
recording state and to the fresh machine. -/
theorem claim8_witness :
    (WriterV2.stepE .hangup ⟨.recording, some 0, true⟩).1 =
      (⟨.recording, some 0, true⟩ : Writer.M) ∧
    ((WriterV2.stepE .hangup Writer.w0).1).state = .done := by
  have hr : WriterV2.Reachable ⟨.recording, some 0, true⟩ := by
    have s1 : WriterV2.stepOne Writer.w0 ⟨.ready, none, false⟩ :=
      ⟨.initDone, by decide⟩
    have s2 : WriterV2.stepOne ⟨.ready, none, false⟩ ⟨.ready, none, true⟩ :=
      ⟨.record, by decide⟩
    have s3 : WriterV2.stepOne ⟨.ready, none, true⟩
        ⟨.recording, some 0, true⟩ :=
      ⟨.promptPlayed, by decide⟩
    exact ((Relation.ReflTransGen.refl.tail s1).tail s2).tail s3
  refine ⟨(claim8_hangup _ hr).1 (Or.inl rfl), ?_⟩
  exact (claim8_hangup _ Relation.ReflTransGen.refl).2 (Or.inl rfl)

/-- Claim C9 (amended): in the notifier-equipped writer variant, the
success scenario record, prompt played, stop, recording finished with
duration d, save, save completed creates exactly one message, with
`read = false` and the finished recording's duration, notifies
`newMessage` exactly once, and ends in `done`.  The earlier writer
variant saves the message but never invokes the notifier: see the
counterexample. -/
theorem claim9_scenario :
    ∀ d : Nat,
      (WriterV2.run [.initDone, .record, .promptPlayed, .stop,
        .recordingDone d, .save, .saveDone] Writer.w0).1.state =
          Writer.St.done ∧
      ((WriterV2.run [.initDone, .record, .promptPlayed, .stop,
        .recordingDone d, .save, .saveDone] Writer.w0).2.filterMap
          Writer.createdMsg) = [Writer.createMessage d] ∧
      (Writer.createMessage d).read = false ∧
      (Writer.createMessage d).duration = d ∧
      ((WriterV2.run [.initDone, .record, .promptPlayed, .stop,
        .recordingDone d, .save, .saveDone] Writer.w0).2.count
          Writer.Eff.newMessage) = 1 := by
  intro d
  refine ⟨?_, ?_, rfl, rfl, ?_⟩ <;>
    simp [WriterV2.run, WriterV2.stepE, Writer.w0, Writer.createdMsg,
      List.count_cons]

/-- Claim C9 counterexample: the first writer variant runs the same
success scenario to `done` but never emits a `newMessage`
notification. -/
theorem claim9_counterexample :
    (WriterV1.run [.initDone, .record, .promptPlayed, .stop,
      .recordingDone 7, .save, .saveDone] Writer.w0).1.state =
        Writer.St.done ∧
    ((WriterV1.run [.initDone, .record, .promptPlayed, .stop,
      .recordingDone 7, .save, .saveDone] Writer.w0).2.count
        Writer.Eff.newMessage) = 0 := by
  exact ⟨by decide, by decide⟩

theorem idxGet_nil (i : Int) : idxGet [] i = none := by
  unfold idxGet
  split <;> simp

theorem existsIn_congr {st : Store} {a m : Message} (h : a.id = m.id) :
    existsIn st a = existsIn st m := by
  simp [existsIn, h]

theorem staleCount_cons (st : Store) (a : Message) (l : List Message) :
    staleCount st (a :: l) =
      staleCount st l + (if existsIn st a then 0 else 1) := by
  simp only [staleCount, List.filter_cons]
  by_cases h : existsIn st a <;> simp [h]

theorem staleCount_le_of_sublist {st : Store} {l1 l2 : List Message}
    (h : l1.Sublist l2) : staleCount st l1 ≤ staleCount st l2 :=
  List.Sublist.length_le (h.filter _)

theorem staleCount_remove_lt {st : Store} {m : Message} :
    ∀ {ms : List Message}, m ∈ ms → existsIn st m = false →
      staleCount st (removeFilter ms m) < staleCount st ms := by
  intro ms hm hst
  induction ms with
  | nil => cases hm
  | cons a rest ih =>
    by_cases hid : (a.id == m.id) = true
    · have hida : a.id = m.id := by simpa using hid
      have hsta : existsIn st a = false := (existsIn_congr hida).trans hst
      have hrf : removeFilter (a :: rest) m = removeFilter rest m := by
        simp [removeFilter, List.filter_cons, hid]
      have hle : staleCount st (removeFilter rest m) ≤ staleCount st rest :=
        staleCount_le_of_sublist (List.filter_sublist rest)
      rw [hrf, staleCount_cons, hsta]
      simpa using Nat.lt_succ_of_le hle
    · have hm2 : m ∈ rest := by
        rcases List.mem_cons.1 hm with he | hm2
        · exact absurd (by rw [he]; simp) hid
        · exact hm2
      have hrf : removeFilter (a :: rest) m = a :: removeFilter rest m := by
        simp only [removeFilter, List.filter_cons]
        simp [hid]
      rw [hrf, staleCount_cons, staleCount_cons]
      have := ih hm2
      omega

/-- Totality of variant A navigation for the three correctly
dispatched operations: the promise always resolves (never rejects),
the number of self-heal retries is bounded by the number of stale
entries, and a message resolved by `current` still exists in the
store. -/
theorem navA_total : ∀ (n : Nat) (st : Store) (op : NavOp)
    (c : VA.Collection), c.messages.length ≤ n → op ≠ .prev →
    (∃ r, (VA.nav st op c).res = Except.ok r) ∧
    (VA.nav st op c).retries ≤ staleCount st c.messages ∧
    (∀ m, op = .current → (VA.nav st op c).res = Except.ok (some m) →
      existsIn st m = true) := by
  intro n
  induction n using Nat.strong_induction_on with
  | _ n ih =>
    intro st op c hlen hop
    rw [VA.nav.eq_def]
    cases op with
    | prev => exact absurd rfl hop
    | first =>
      simp only
      split
      · exact ⟨⟨_, rfl⟩, Nat.zero_le _, by intro m hcur; cases hcur⟩
      · rename_i message hmsg
        by_cases hex : existsIn st message = true
        · simp only [hex, if_true]
          exact ⟨⟨_, rfl⟩, Nat.zero_le _, by intro m hcur; cases hcur⟩
        · simp only [hex, if_false, Bool.false_eq_true]
          have hmem : message ∈ c.messages := mem_of_idxGet hmsg
          have hlt : (removeFilter c.messages message).length <
              c.messages.length := removeFilter_length_lt hmem
          have hlt2 : (VA.remove
              { c with currentMessage := true, currentIndex := 0 }
              message).messages.length < n := by
            simp only [VA.remove]
            omega
          obtain ⟨⟨r, hr⟩, hret, hcur⟩ :=
            ih _ hlt2 st .first
              (VA.remove { c with currentMessage := true, currentIndex := 0 }
                message)
              le_rfl hop
          refine ⟨⟨r, hr⟩, ?_, by intro m hcur2; cases hcur2⟩
          have hsc : staleCount st (VA.remove
              { c with currentMessage := true, currentIndex := 0 }
              message).messages < staleCount st c.messages := by
            simp only [VA.remove]
            exact staleCount_remove_lt hmem (by simpa using hex)
          omega
    | next =>
      simp only
      split
      · exact ⟨⟨_, rfl⟩, Nat.zero_le _, by intro m hcur; cases hcur⟩
      · rename_i message hmsg
        by_cases hex : existsIn st message = true
        · simp only [hex, if_true]
          exact ⟨⟨_, rfl⟩, Nat.zero_le _, by intro m hcur; cases hcur⟩
        · simp only [hex, if_false, Bool.false_eq_true]
          have hmem : message ∈ c.messages := mem_of_idxGet hmsg
          have hlt : (removeFilter c.messages message).length <
              c.messages.length := removeFilter_length_lt hmem
          set cnext : VA.Collection := { c with currentIndex := if c.currentMessage then c.currentIndex + 1 else c.currentIndex, currentMessage := true } with hcnext
          have hlt2 : (VA.remove cnext message).messages.length < n := by
            simp only [VA.remove, hcnext]
            omega
          obtain ⟨⟨r, hr⟩, hret, hcur⟩ :=
            ih _ hlt2 st .next (VA.remove cnext message) le_rfl hop
          refine ⟨⟨r, hr⟩, ?_, by intro m hcur2; cases hcur2⟩
          have hsc : staleCount st (VA.remove cnext message).messages <
              staleCount st c.messages := by
            simp only [VA.remove, hcnext]
            exact staleCount_remove_lt hmem (by simpa using hex)
          omega
    | current =>
      simp only
      split
      · refine ⟨⟨_, rfl⟩, Nat.zero_le _, ?_⟩
        intro m _ hres
        cases hres
      · rename_i message hmsg
        by_cases hex : existsIn st message = true
        · simp only [hex, if_true]
          refine ⟨⟨_, rfl⟩, Nat.zero_le _, ?_⟩
          intro m _ hres
          cases hres
          exact hex
        · simp only [hex, if_false, Bool.false_eq_true]
          have hmem : message ∈ c.messages := mem_of_idxGet hmsg
          have hlt : (removeFilter c.messages message).length <
              c.messages.length := removeFilter_length_lt hmem
          have hlt2 : (VA.remove { c with currentMessage := true }
              message).messages.length < n := by
            simp only [VA.remove]
            omega
          obtain ⟨⟨r, hr⟩, hret, hcur⟩ :=
            ih _ hlt2 st .current
              (VA.remove { c with currentMessage := true } message)
              le_rfl hop
          refine ⟨⟨r, hr⟩, ?_, ?_⟩
          · have hsc : staleCount st (VA.remove
                { c with currentMessage := true } message).messages <
                staleCount st c.messages := by
              simp only [VA.remove]
              exact staleCount_remove_lt hmem (by simpa using hex)
            omega
          · intro m _ hres
            exact hcur m rfl hres

/-- Claim C1 (amended): for the operations `first`, `next` and
`current`, the staleness self-heal evicts the stale entry, re-issues
the same operation, performs at most as many retries as there are
stale entries, and the promise resolves (with a message or none)
rather than rejecting; a message resolved by `current` still exists
in the store.  For `prev` the re-dispatch by the string `prev` hits a
missing method (it is named `previous`) and the promise rejects: see
the counterexample. -/
theorem claim1_selfheal :
    ∀ (st : Store) (op : NavOp) (c : VA.Collection), op ≠ .prev →
      (∃ r, (VA.nav st op c).res = Except.ok r) ∧
      (VA.nav st op c).retries ≤ staleCount st c.messages ∧
      (∀ m, op = .current → (VA.nav st op c).res = Except.ok (some m) →
        existsIn st m = true) :=
  fun st op c hop => navA_total c.messages.length st op c le_rfl hop

/-- Claim C1 witness: the amended theorem applied to `current` on a
collection whose only message is stale. -/
theorem claim1_witness :
    (∃ r, (VA.nav ⟨[], fun _ => []⟩ .current
      ⟨[⟨some 1, 5, false, 0⟩], 0, true, 9⟩).res = Except.ok r) ∧
    (VA.nav ⟨[], fun _ => []⟩ .current
      ⟨[⟨some 1, 5, false, 0⟩], 0, true, 9⟩).retries ≤
      staleCount ⟨[], fun _ => []⟩ [⟨some 1, 5, false, 0⟩] ∧
    (∀ m, NavOp.current = NavOp.current →
      (VA.nav ⟨[], fun _ => []⟩ .current
        ⟨[⟨some 1, 5, false, 0⟩], 0, true, 9⟩).res = Except.ok (some m) →
      existsIn ⟨[], fun _ => []⟩ m = true) :=
  claim1_selfheal ⟨[], fun _ => []⟩ .current
    ⟨[⟨some 1, 5, false, 0⟩], 0, true, 9⟩ (by decide)

/-- Claim C1 counterexample: `previous` on a collection whose cursor
message is stale evicts it and then re-dispatches the missing method
name `prev`, so the promise rejects instead of resolving. -/
theorem claim1_counterexample :
    (VA.nav ⟨[], fun _ => []⟩ .prev
      ⟨[⟨some 1, 5, false, 0⟩], 1, true, 9⟩).res =
      Except.error VA.NavErr.dispatch := by
  simp [VA.nav, VA.getMessage, idxGet, existsIn]

/-- When `next()` finds a message at the stepped cursor and the store
still has it, the call resolves with it, the cursor stays at the
stepped position, and both cursor flags are set. -/
theorem navC_next_found (st : Store) (c : VC.Collection) (m : Message)
    (hfound : idxGet c.messages (VC.nextIdx c) = some m)
    (hlive : existsIn st m = true) :
    VC.nav st .next c =
      (Except.ok m,
       { c with currentIndex := VC.nextIdx c, currentMessage := true,
                firstMessagePlayed := true }) := by
  rw [VC.nav.eq_def]
  simp only [VC.nextIdx] at hfound ⊢
  simp only [VC.getMessage]
  rw [hfound]
  simp [hlive]

/-- When `first()` finds a message at position 0 and the store still
has it, the call resolves with it and sets both cursor flags. -/
theorem navC_first_found (st : Store) (c : VC.Collection) (m : Message)
    (hfound : idxGet c.messages 0 = some m)
    (hlive : existsIn st m = true) :
    VC.nav st .first c =
      (Except.ok m,
       { c with currentIndex := 0, currentMessage := true,
                firstMessagePlayed := true }) := by
  rw [VC.nav.eq_def]
  simp only [VC.getMessage]
  rw [hfound]
  simp [hlive]

/-- When `prev()` finds a message at the decremented cursor and the
store still has it, the call resolves with it and sets both cursor
flags. -/
theorem navC_prev_found (st : Store) (c : VC.Collection) (m : Message)
    (hfound : idxGet c.messages (c.currentIndex - 1) = some m)
    (hlive : existsIn st m = true) :
    VC.nav st .prev c =
      (Except.ok m,
       { c with currentIndex := c.currentIndex - 1, currentMessage := true,
                firstMessagePlayed := true }) := by
  rw [VC.nav.eq_def]
  simp only [VC.getMessage]
  rw [hfound]
  simp [hlive]

/-- Claim C3 (amended): `next()` steps the cursor to `nextIdx`
(incremented exactly when the cursor is live); when no message sits
at that position it merges a fetched batch and decrements the cursor
exactly when it equals the new list length, so if the stepped cursor
was at most the old list length the fetch path never retains a
cursor beyond the last index of a non-empty list; when the stepped
cursor finds a message that still exists, the cursor stays at
`nextIdx`.  Without the bound hypothesis the claim fails: see the
counterexample. -/
theorem claim3_next :
    ∀ (st : Store) (c : VC.Collection),
      (idxGet c.messages (VC.nextIdx c) = none →
        VC.nav st .next c =
          (let c2 := VC.add { c with currentIndex := VC.nextIdx c }
            (st.latestFn c.latest)
           let msg := idxGet c2.messages (VC.nextIdx c)
           let c3 := if (VC.nextIdx c) = (c2.messages.length : Int) then
               { c2 with currentIndex := VC.nextIdx c - 1 } else c2
           match msg with
           | some m => (Except.ok m, { c3 with currentMessage := true })
           | none => (Except.error (), c3))) ∧
      (idxGet c.messages (VC.nextIdx c) = none →
        VC.nextIdx c ≤ (c.messages.length : Int) →
        (VC.nav st .next c).2.messages ≠ [] →
        (VC.nav st .next c).2.currentIndex <
          ((VC.nav st .next c).2.messages.length : Int)) ∧
      (∀ m : Message, idxGet c.messages (VC.nextIdx c) = some m →
        existsIn st m = true →
        VC.nav st .next c =
          (Except.ok m,
           { c with currentIndex := VC.nextIdx c, currentMessage := true,
                    firstMessagePlayed := true })) := by
  intro st c
  have hchar : idxGet c.messages (VC.nextIdx c) = none →
      VC.nav st .next c =
        (let c2 := VC.add { c with currentIndex := VC.nextIdx c }
          (st.latestFn c.latest)
         let msg := idxGet c2.messages (VC.nextIdx c)
         let c3 := if (VC.nextIdx c) = (c2.messages.length : Int) then
             { c2 with currentIndex := VC.nextIdx c - 1 } else c2
         match msg with
         | some m => (Except.ok m, { c3 with currentMessage := true })
         | none => (Except.error (), c3)) := by
    intro hmiss
    rw [VC.nav.eq_def]
    simp only [VC.nextIdx] at hmiss ⊢
    simp only [VC.getMessage]
    rw [hmiss]
    simp [VC.add]
  refine ⟨hchar, ?_, ?_⟩
  · intro hmiss hle hne
    rw [hchar hmiss] at hne ⊢
    obtain ⟨t, ht⟩ : ∃ t,
        (VC.add { c with currentIndex := VC.nextIdx c }
          (st.latestFn c.latest)).messages = c.messages ++ t := by
      obtain ⟨t, h1, -, -, -⟩ :=
        addFold_spec (st.latestFn c.latest) c.messages c.latest
      exact ⟨t, h1⟩
    set c2 := VC.add { c with currentIndex := VC.nextIdx c }
      (st.latestFn c.latest) with hc2
    have hlen : (c.messages.length : Int) ≤ (c2.messages.length : Int) := by
      rw [ht]
      simp
    have hidx : c2.currentIndex = VC.nextIdx c := by
      rw [hc2]
      simp [VC.add]
    rcases hcase : idxGet c2.messages (VC.nextIdx c) with _ | m <;>
      simp only [hcase] at hne ⊢ <;>
      by_cases heq : (VC.nextIdx c) = (c2.messages.length : Int) <;>
      simp only [heq, if_true, if_false] at hne ⊢ <;>
      simp at hne ⊢ <;>
      omega
  · intro m hfound hlive
    exact navC_next_found st c m hfound hlive

/-- Claim C3 witness: the amended bound applied to a not-live cursor
one past the end of a one-message collection with an empty fetch: the
cursor is clamped back to the last index. -/
theorem claim3_witness :
    (VC.nav ⟨[], fun _ => []⟩ .next
      ⟨[⟨some 1, 5, false, 0⟩], 1, false, true, 0⟩).2.currentIndex <
      (((VC.nav ⟨[], fun _ => []⟩ .next
        ⟨[⟨some 1, 5, false, 0⟩], 1, false, true, 0⟩).2.messages.length :
        Int)) :=
  (claim3_next ⟨[], fun _ => []⟩
    ⟨[⟨some 1, 5, false, 0⟩], 1, false, true, 0⟩).2.1
    (by simp [VC.nextIdx, idxGet])
    (by simp [VC.nextIdx])
    (by simp [VC.nav, VC.getMessage, idxGet, VC.add, addFold])

/-- Claim C3 counterexample: from a live cursor equal to the list
length of a two-message collection, `next()` with an empty fetch
retains cursor 3, strictly beyond the last index 1 of the still
non-empty list. -/
theorem claim3_counterexample :
    (VC.nav ⟨[], fun _ => []⟩ .next
      ⟨[⟨some 1, 5, false, 0⟩, ⟨some 2, 6, false, 0⟩], 2, true, true,
        9⟩).2.currentIndex = 3 ∧
    (VC.nav ⟨[], fun _ => []⟩ .next
      ⟨[⟨some 1, 5, false, 0⟩, ⟨some 2, 6, false, 0⟩], 2, true, true,
        9⟩).2.messages.length = 2 := by
  constructor <;>
    simp [VC.nav, VC.getMessage, idxGet, VC.add, addFold, existsIn]

/-- Claim C5 counterexample: a live cursor at position 0 of a
five-message collection reached through the fetch path of `next()`
(which sets `currentMessage` but not `firstMessagePlayed`) yields an
empty menu in the last variant, not `[menuRepeat, menuNext,
menuDelete]`. -/
theorem claim5_counterexample :
    (VC.nav ⟨[1, 2, 3, 4, 5], fun _ =>
        [⟨some 1, 1, false, 0⟩, ⟨some 2, 2, false, 0⟩,
         ⟨some 3, 3, false, 0⟩, ⟨some 4, 4, false, 0⟩,
         ⟨some 5, 5, false, 0⟩]⟩ .next
      ⟨[], 0, false, false, 0⟩).2.currentIndex = 0 ∧
    (VC.nav ⟨[1, 2, 3, 4, 5], fun _ =>
        [⟨some 1, 1, false, 0⟩, ⟨some 2, 2, false, 0⟩,
         ⟨some 3, 3, false, 0⟩, ⟨some 4, 4, false, 0⟩,
         ⟨some 5, 5, false, 0⟩]⟩ .next
      ⟨[], 0, false, false, 0⟩).2.currentMessage = true ∧
    (VC.nav ⟨[1, 2, 3, 4, 5], fun _ =>
        [⟨some 1, 1, false, 0⟩, ⟨some 2, 2, false, 0⟩,
         ⟨some 3, 3, false, 0⟩, ⟨some 4, 4, false, 0⟩,
         ⟨some 5, 5, false, 0⟩]⟩ .next
      ⟨[], 0, false, false, 0⟩).2.messages.length = 5 ∧
    VC.calculateMenu (VC.nav ⟨[1, 2, 3, 4, 5], fun _ =>
        [⟨some 1, 1, false, 0⟩, ⟨some 2, 2, false, 0⟩,
         ⟨some 3, 3, false, 0⟩, ⟨some 4, 4, false, 0⟩,
         ⟨some 5, 5, false, 0⟩]⟩ .next
      ⟨[], 0, false, false, 0⟩).2 = [] ∧
    VC.calculateMenu (VC.nav ⟨[1, 2, 3, 4, 5], fun _ =>
        [⟨some 1, 1, false, 0⟩, ⟨some 2, 2, false, 0⟩,
         ⟨some 3, 3, false, 0⟩, ⟨some 4, 4, false, 0⟩,
         ⟨some 5, 5, false, 0⟩]⟩ .next
      ⟨[], 0, false, false, 0⟩).2 ≠
      ["menuRepeat", "menuNext", "menuDelete"] := by
  refine ⟨?_, ?_, ?_, ?_, ?_⟩ <;>
    simp [VC.nav, VC.getMessage, idxGet, VC.add, addFold, existsIn,
      VC.calculateMenu, VC.previousExists]

/-- Claim C5 witness: the amended equation applied to a live cursor at
position 0 of a five-message collection with `firstMessagePlayed`
set, yielding the claimed `[menuRepeat, menuNext, menuDelete]`. -/
theorem claim5_witness :
    VC.calculateMenu ⟨[⟨some 1, 1, false, 0⟩, ⟨some 2, 2, false, 0⟩,
        ⟨some 3, 3, false, 0⟩, ⟨some 4, 4, false, 0⟩,
        ⟨some 5, 5, false, 0⟩], 0, true, true, 0⟩ =
      specCalculateMenu 0 true 5 :=
  claim5_menu.2.1 ⟨[⟨some 1, 1, false, 0⟩, ⟨some 2, 2, false, 0⟩,
    ⟨some 3, 3, false, 0⟩, ⟨some 4, 4, false, 0⟩,
    ⟨some 5, 5, false, 0⟩], 0, true, true, 0⟩ rfl

theorem idxGet_natCast (ms : List Message) (i : Nat) :
    idxGet ms (i : Int) = ms.get? i := by
  simp [idxGet]

/-- One `next()` step of the synchronous variant from a live cursor
that is not at the last index. -/
theorem nextB_step (msgs : List Message) (i : Nat) (t : Nat)
    (h : i + 1 < msgs.length) :
    VB.next ⟨msgs, (i : Int), true, t⟩ =
      (msgs.get? (i + 1), ⟨msgs, ((i + 1 : Nat) : Int), true, t⟩) := by
  have hcast : (i : Int) + 1 = ((i + 1 : Nat) : Int) := by push_cast; ring
  have hne : ¬(((i + 1 : Nat) : Int) = (msgs.length : Int)) := by
    intro hc
    rw [Int.natCast_inj] at hc
    omega
  have hne2 : ¬((i : Int) + 1 = (msgs.length : Int)) := by
    rw [hcast]
    exact hne
  simp only [VB.next, VB.getMessage, if_true, hcast]
  rw [idxGet_natCast]
  simp [hne, hne2]

/-- One `previous()` step of the synchronous variant from a positive
cursor. -/
theorem prevB_step (msgs : List Message) (i : Nat) (live : Bool) (t : Nat)
    (h : 1 ≤ i) :
    VB.previous ⟨msgs, (i : Int), live, t⟩ =
      (msgs.get? (i - 1), ⟨msgs, ((i - 1 : Nat) : Int), live, t⟩) := by
  have hcast : (i : Int) - 1 = ((i - 1 : Nat) : Int) := by
    rw [Int.natCast_sub h]
    simp
  have hnn : ¬(((i - 1 : Nat) : Int) < 0) := by
    simp
  simp only [VB.previous, VB.getMessage, hcast]
  rw [idxGet_natCast]
  simp [hnn]

/-- The iterated `next()` walk of the synchronous variant returns the
messages after the start position, in order, and ends with the cursor
advanced by the number of steps. -/
theorem walkNextB_spec : ∀ (k i : Nat) (msgs : List Message) (t : Nat),
    i + k + 1 ≤ msgs.length →
    VB.walkNext k ⟨msgs, (i : Int), true, t⟩ =
      (((msgs.drop (i + 1)).take k).map some,
       ⟨msgs, ((i + k : Nat) : Int), true, t⟩) := by
  intro k
  induction k with
  | zero =>
    intro i msgs t h
    simp [VB.walkNext]
  | succ k ihk =>
    intro i msgs t h
    rw [VB.walkNext, nextB_step msgs i t (by omega),
      ihk (i + 1) msgs t (by omega)]
    have hlt : i + 1 < msgs.length := by omega
    have hd : msgs.drop (i + 1) = msgs[i + 1] :: msgs.drop (i + 2) :=
      List.drop_eq_getElem_cons hlt
    have hget : msgs.get? (i + 1) = some msgs[i + 1] := by
      rw [List.get?_eq_getElem?, List.getElem?_eq_getElem hlt]
    have harith : i + 1 + k = i + (k + 1) := by omega
    rw [hget, hd, List.take_succ_cons, harith]
    simp

/-- The iterated `previous()` walk of the synchronous variant returns
the messages before the start position in reverse order and ends with
the cursor pulled back by the number of steps. -/
theorem walkPrevB_spec : ∀ (k i : Nat) (msgs : List Message)
    (live : Bool) (t : Nat), k ≤ i → i ≤ msgs.length →
    VB.walkPrev k ⟨msgs, (i : Int), live, t⟩ =
      ((((msgs.drop (i - k)).take k).reverse).map some,
       ⟨msgs, ((i - k : Nat) : Int), live, t⟩) := by
  intro k
  induction k with
  | zero =>
    intro i msgs live t hk hi
    simp [VB.walkPrev]
  | succ k ihk =>
    intro i msgs live t hk hi
    rw [VB.walkPrev, prevB_step msgs i live t (by omega),
      ihk (i - 1) msgs live t (by omega) (by omega)]
    have hlt : i - 1 < msgs.length := by omega
    have hget : msgs.get? (i - 1) = some msgs[i - 1] := by
      rw [List.get?_eq_getElem?, List.getElem?_eq_getElem hlt]
    have harith : i - 1 - k = i - (k + 1) := by omega
    have hlen : k < (msgs.drop (i - (k + 1))).length := by
      rw [List.length_drop]
      omega
    have htake : (msgs.drop (i - (k + 1))).take (k + 1) =
        (msgs.drop (i - (k + 1))).take k ++ [msgs[i - 1]] := by
      rw [List.take_succ]
      have : (msgs.drop (i - (k + 1)))[k]? = some msgs[i - 1] := by
        rw [List.getElem?_drop]
        rw [List.getElem?_eq_getElem (by omega)]
        congr 1
        congr 1
        omega
      rw [this]
      rfl
    rw [hget, harith, htake]
    simp

/-- One `next()` step of the last variant from a live cursor not at
the last index, when every message still exists in the store. -/
theorem nextC_step (st : Store) (msgs : List Message) (i t : Nat)
    (hex : ∀ m ∈ msgs, existsIn st m = true) (h : i + 1 < msgs.length) :
    VC.nav st .next ⟨msgs, (i : Int), true, true, t⟩ =
      (Except.ok msgs[i + 1],
       ⟨msgs, ((i + 1 : Nat) : Int), true, true, t⟩) := by
  have hcast : (i : Int) + 1 = ((i + 1 : Nat) : Int) := by push_cast; ring
  have hfound : idxGet msgs
      (VC.nextIdx ⟨msgs, (i : Int), true, true, t⟩) = some msgs[i + 1] := by
    simp only [VC.nextIdx, if_true]
    rw [hcast, idxGet_natCast, List.get?_eq_getElem?,
      List.getElem?_eq_getElem h]
  have hlive : existsIn st msgs[i + 1] = true :=
    hex _ (List.getElem_mem h)
  rw [navC_next_found st ⟨msgs, (i : Int), true, true, t⟩ msgs[i + 1]
    hfound hlive]
  simp only [VC.nextIdx, if_true, hcast]

/-- One `prev()` step of the last variant from a positive live cursor
within bounds, when every message still exists in the store. -/
theorem prevC_step (st : Store) (msgs : List Message) (i t : Nat)
    (hex : ∀ m ∈ msgs, existsIn st m = true) (h1 : 1 ≤ i)
    (h2 : i ≤ msgs.length) :
    VC.nav st .prev ⟨msgs, (i : Int), true, true, t⟩ =
      (Except.ok msgs[i - 1],
       ⟨msgs, ((i - 1 : Nat) : Int), true, true, t⟩) := by
  have hcast : (i : Int) - 1 = ((i - 1 : Nat) : Int) := by
    rw [Int.natCast_sub h1]
    simp
  have hlt : i - 1 < msgs.length := by omega
  have hfound : idxGet msgs ((i : Int) - 1) = some msgs[i - 1] := by
    rw [hcast, idxGet_natCast, List.get?_eq_getElem?,
      List.getElem?_eq_getElem hlt]
  have hlive : existsIn st msgs[i - 1] = true :=
    hex _ (List.getElem_mem hlt)
  rw [navC_prev_found st ⟨msgs, (i : Int), true, true, t⟩ msgs[i - 1]
    hfound hlive]
  simp only [hcast]

/-- The iterated `next()` walk of the last variant returns `ok` of the
messages after the start position, in order. -/
theorem walkNextC_spec : ∀ (k i : Nat) (st : Store) (msgs : List Message)
    (t : Nat), (∀ m ∈ msgs, existsIn st m = true) →
    i + k + 1 ≤ msgs.length →
    VC.walkNext st k ⟨msgs, (i : Int), true, true, t⟩ =
      (((msgs.drop (i + 1)).take k).map Except.ok,
       ⟨msgs, ((i + k : Nat) : Int), true, true, t⟩) := by
  intro k
  induction k with
  | zero =>
    intro i st msgs t hex h
    simp [VC.walkNext]
  | succ k ihk =>
    intro i st msgs t hex h
    rw [VC.walkNext, nextC_step st msgs i t hex (by omega),
      ihk (i + 1) st msgs t hex (by omega)]
    have hlt : i + 1 < msgs.length := by omega
    have hd : msgs.drop (i + 1) = msgs[i + 1] :: msgs.drop (i + 2) :=
      List.drop_eq_getElem_cons hlt
    have harith : i + 1 + k = i + (k + 1) := by omega
    rw [hd, List.take_succ_cons, harith]
    simp

/-- The iterated `prev()` walk of the last variant returns `ok` of the
messages before the start position, in reverse order. -/
theorem walkPrevC_spec : ∀ (k i : Nat) (st : Store) (msgs : List Message)
    (t : Nat), (∀ m ∈ msgs, existsIn st m = true) →
    k ≤ i → i ≤ msgs.length →
    VC.walkPrev st k ⟨msgs, (i : Int), true, true, t⟩ =
      ((((msgs.drop (i - k)).take k).reverse).map Except.ok,
       ⟨msgs, ((i - k : Nat) : Int), true, true, t⟩) := by
  intro k
  induction k with
  | zero =>
    intro i st msgs t hex hk hi
    simp [VC.walkPrev]
  | succ k ihk =>
    intro i st msgs t hex hk hi
    rw [VC.walkPrev, prevC_step st msgs i t hex (by omega) hi,
      ihk (i - 1) st msgs t hex (by omega) (by omega)]
    have hlt : i - 1 < msgs.length := by omega
    have harith : i - 1 - k = i - (k + 1) := by omega
    have htake : (msgs.drop (i - (k + 1))).take (k + 1) =
        (msgs.drop (i - (k + 1))).take k ++ [msgs[i - 1]] := by
      rw [List.take_succ]
      have : (msgs.drop (i - (k + 1)))[k]? = some msgs[i - 1] := by
        rw [List.getElem?_drop]
        rw [List.getElem?_eq_getElem (by omega)]
        congr 1
        congr 1
        omega
      rw [this]
      rfl
    rw [harith, htake]
    simp

/-- Claim C7: on a freshly loaded collection of N messages (all still
in the store), `first()` followed by N-1 `next()` calls returns every
message exactly once in list order, and N-1 subsequent `previous()`
calls walk back, the last one returning the first message; this holds
in the synchronous variant and in the store-checked last variant. -/
theorem claim7_roundtrip :
    ∀ (msgs : List Message) (t : Nat) (st : Store), msgs ≠ [] →
      (∀ m ∈ msgs, existsIn st m = true) →
      ((VB.first ⟨msgs, 0, false, t⟩).1 ::
          (VB.walkNext (msgs.length - 1)
            (VB.first ⟨msgs, 0, false, t⟩).2).1 = msgs.map some) ∧
      ((VB.walkNext (msgs.length - 1) (VB.first ⟨msgs, 0, false, t⟩).2).2 =
        ⟨msgs, ((msgs.length - 1 : Nat) : Int), true, t⟩) ∧
      ((VB.walkPrev (msgs.length - 1)
          ⟨msgs, ((msgs.length - 1 : Nat) : Int), true, t⟩).2 =
        ⟨msgs, 0, true, t⟩) ∧
      (2 ≤ msgs.length → ∃ pre m0, msgs.get? 0 = some m0 ∧
        (VB.walkPrev (msgs.length - 1)
          ⟨msgs, ((msgs.length - 1 : Nat) : Int), true, t⟩).1 =
          pre ++ [some m0]) ∧
      ((VC.nav st .first ⟨msgs, 0, false, false, t⟩).1 ::
          (VC.walkNext st (msgs.length - 1)
            (VC.nav st .first ⟨msgs, 0, false, false, t⟩).2).1 =
        msgs.map Except.ok) ∧
      ((VC.walkNext st (msgs.length - 1)
          (VC.nav st .first ⟨msgs, 0, false, false, t⟩).2).2 =
        ⟨msgs, ((msgs.length - 1 : Nat) : Int), true, true, t⟩) ∧
      ((VC.walkPrev st (msgs.length - 1)
          ⟨msgs, ((msgs.length - 1 : Nat) : Int), true, true, t⟩).2 =
        ⟨msgs, 0, true, true, t⟩) ∧
      (2 ≤ msgs.length → ∃ pre m0, msgs.get? 0 = some m0 ∧
        (VC.walkPrev st (msgs.length - 1)
          ⟨msgs, ((msgs.length - 1 : Nat) : Int), true, true, t⟩).1 =
          pre ++ [Except.ok m0]) := by
  intro msgs t st hne hex
  have h0 : 0 < msgs.length := List.length_pos.2 hne
  have hget0 : msgs.get? 0 = some msgs[0] := by
    rw [List.get?_eq_getElem?, List.getElem?_eq_getElem h0]
  have hd0 : msgs = msgs[0] :: msgs.drop 1 := by
    have := List.drop_eq_getElem_cons (l := msgs) (n := 0) h0
    simpa using this
  have htake1 : (msgs.drop 1).take (msgs.length - 1) = msgs.drop 1 := by
    apply List.take_of_length_le
    simp
  have hwnB := walkNextB_spec (msgs.length - 1) 0 msgs t (by omega)
  have hwnB2 : VB.walkNext (msgs.length - 1) ⟨msgs, 0, true, t⟩ =
      ((msgs.drop 1).map some,
       ⟨msgs, ((msgs.length - 1 : Nat) : Int), true, t⟩) := by
    simp only [Nat.cast_zero, Nat.zero_add, htake1] at hwnB
    exact hwnB
  have hfirstB : VB.first ⟨msgs, 0, false, t⟩ =
      (msgs.get? 0, ⟨msgs, 0, true, t⟩) := by
    simp [VB.first, VB.getMessage, idxGet]
  have hwpB := walkPrevB_spec (msgs.length - 1) (msgs.length - 1) msgs
    true t le_rfl (by omega)
  have hwpB2 : VB.walkPrev (msgs.length - 1)
      ⟨msgs, ((msgs.length - 1 : Nat) : Int), true, t⟩ =
      (((msgs.take (msgs.length - 1)).reverse).map some,
       ⟨msgs, 0, true, t⟩) := by
    simp only [Nat.sub_self, List.drop_zero, Nat.cast_zero] at hwpB
    exact hwpB
  have hfirstC : VC.nav st .first ⟨msgs, 0, false, false, t⟩ =
      (Except.ok msgs[0], ⟨msgs, 0, true, true, t⟩) := by
    have hfound : idxGet msgs (0 : Int) = some msgs[0] := by
      have : ((0 : Nat) : Int) = (0 : Int) := rfl
      rw [← this, idxGet_natCast, hget0]
    have := navC_first_found st ⟨msgs, 0, false, false, t⟩ msgs[0] hfound
      (hex _ (List.getElem_mem h0))
    simpa using this
  have hwnC := walkNextC_spec (msgs.length - 1) 0 st msgs t hex (by omega)
  have hwnC2 : VC.walkNext st (msgs.length - 1) ⟨msgs, 0, true, true, t⟩ =
      ((msgs.drop 1).map Except.ok,
       ⟨msgs, ((msgs.length - 1 : Nat) : Int), true, true, t⟩) := by
    simp only [Nat.cast_zero, Nat.zero_add, htake1] at hwnC
    exact hwnC
  have hwpC := walkPrevC_spec (msgs.length - 1) (msgs.length - 1) st msgs
    t hex le_rfl (by omega)
  have hwpC2 : VC.walkPrev st (msgs.length - 1)
      ⟨msgs, ((msgs.length - 1 : Nat) : Int), true, true, t⟩ =
      (((msgs.take (msgs.length - 1)).reverse).map Except.ok,
       ⟨msgs, 0, true, true, t⟩) := by
    simp only [Nat.sub_self, List.drop_zero, Nat.cast_zero] at hwpC
    exact hwpC
  have htakeSplit : 2 ≤ msgs.length →
      msgs.take (msgs.length - 1) =
        msgs[0] :: (msgs.drop 1).take (msgs.length - 2) := by
    intro h2
    have hlen2 : msgs.length - 1 = (msgs.length - 2) + 1 := by omega
    have h3 := congrArg (fun l => List.take (msgs.length - 2 + 1) l) hd0
    simp only at h3
    rw [hlen2, h3, List.take_succ_cons]
  refine ⟨?_, ?_, ?_, ?_, ?_, ?_, ?_, ?_⟩
  · rw [hfirstB, hwnB2, hget0]
    conv_rhs => rw [hd0]
    simp
  · rw [hfirstB, hwnB2]
  · rw [hwpB2]
  · intro h2
    refine ⟨((msgs.drop 1).take (msgs.length - 2)).reverse.map some,
      msgs[0], hget0, ?_⟩
    rw [hwpB2, htakeSplit h2]
    simp
  · rw [hfirstC, hwnC2]
    conv_rhs => rw [hd0]
    simp
  · rw [hfirstC, hwnC2]
  · rw [hwpC2]
  · intro h2
    refine ⟨((msgs.drop 1).take (msgs.length - 2)).reverse.map Except.ok,
      msgs[0], hget0, ?_⟩
    rw [hwpC2, htakeSplit h2]
    simp

/-- Claim C7 witness: the round trip on a concrete fresh three-message
collection whose messages all exist in the store. -/
theorem claim7_witness :
    ((VB.first ⟨[⟨some 1, 1, false, 0⟩, ⟨some 2, 2, false, 0⟩,
        ⟨some 3, 3, false, 0⟩], 0, false, 0⟩).1 ::
      (VB.walkNext 2 (VB.first ⟨[⟨some 1, 1, false, 0⟩,
        ⟨some 2, 2, false, 0⟩, ⟨some 3, 3, false, 0⟩],
        0, false, 0⟩).2).1 =
      [⟨some 1, 1, false, 0⟩, ⟨some 2, 2, false, 0⟩,
       ⟨some 3, 3, false, 0⟩].map some) :=
  (claim7_roundtrip
    [⟨some 1, 1, false, 0⟩, ⟨some 2, 2, false, 0⟩, ⟨some 3, 3, false, 0⟩]
    0 ⟨[1, 2, 3], fun _ => []⟩ (by decide) (by decide)).1
